import Mathlib

/-!
Shallow embedding of the RAM wallet core (Sui Move modules `ram::core`,
`ram::bioguard`, `ram::wallet`, `ram::transfers`).

Move semantics notes reflected in the embedding:
* A Move `assert!` aborts the whole transaction; no partial mutation is ever
  persisted.  Every entry function is therefore embedded as a function into
  `Except MoveErr σ`: an `.error e` result means the operation aborted with
  code `e` and ALL state (balances, timestamps, lock, registry, events) is
  unchanged, while `.ok` carries the complete post-state and the list of
  emitted events.
* `u64` values (amounts, timestamps) are modelled as `Nat`; none of the
  verified operations can underflow (debits are guarded) and overflow aborts
  a Move transaction atomically, which the claims do not exercise.
* Move `String` / `vector<u8>` handles and coin-type names are modelled as
  Lean `String`; the source only ever compares them for equality
  (`wallet_handle(w).into_bytes() == handle`), which equality of strings
  models faithfully.
* A Sui `Bag` keyed by coin-type name holding `Balance<T>` values is modelled
  as an association list `List (String × Nat)`; `bag::add` appends, lookups
  find the first matching key, exactly as the source uses it.
* The `Clock` argument is the current time in ms (`clock::timestamp_ms`).
* The enclave is modelled by its only observable behaviour in the source: a
  boolean verdict of `verify_signature(intent_scope, timestamp, payload, sig)`.
-/

namespace Ram

/-- Error codes of `ram::core` (core.move lines 18-25); the literal abort code
100 used for a coin-type mismatch in transfers.move / wallet.move is
`ECoinTypeMismatch`. -/
inductive MoveErr where
  | EAddressAlreadyExists
  | ENotOwner
  | EInvalidSignature
  | EReplayAttempt
  | EInsufficientBalance
  | EWalletLocked
  | EWalletNotLinked
  | EAddressNotFound
  | ECoinTypeMismatch
  deriving DecidableEq, Repr

/-- Intent constants of `ram::core` (core.move lines 29-33). -/
def CREATE_WALLET_INTENT : Nat := 0

def LINK_ADDRESS_INTENT : Nat := 1

def TRANSFER_INTENT : Nat := 2

def BIOAUTH_INTENT : Nat := 3

def WITHDRAW_INTENT : Nat := 4

/-- BioAuth result codes of `ram::core` (core.move lines 37-39). -/
def BIOAUTH_OK : Nat := 0

def BIOAUTH_INVALID_AMOUNT : Nat := 1

def BIOAUTH_DURESS : Nat := 2

/-- Lock duration, core.move line 43: 24 hours in milliseconds. -/
def LOCK_DURATION_MS : Nat := 86400000

/-- Payload structs of `ram::core` (core.move lines 78-110), a tagged union
mirroring the five `*Payload` structs. -/
inductive AttPayload where
  | CreateWallet (handle : String)
  | LinkAddress (handle : String) (addr : Nat)
  | Transfer (from_handle to_handle : String) (amount : Nat) (coin_type : String)
  | BioAuth (handle : String) (amount result : Nat) (transcript : String)
  | Withdraw (handle : String) (amount : Nat) (coin_type : String)
  deriving DecidableEq, Repr

/-- The enclave as the source observes it: `enclave.verify_signature(intent,
timestamp, payload, signature)` returns a Bool.  Signatures are opaque byte
strings, modelled as `List Nat`. -/
structure Enclave where
  verify : Nat → Nat → AttPayload → List Nat → Bool

/-- Events of `ram::events` (events.move). -/
inductive Event where
  | WalletCreated (handle : String) (wallet_id : Nat)
  | AddressLinked (handle : String) (linked_address : Nat)
  | Deposited (handle coin_type : String) (amount : Nat)
  | Withdrawn (handle coin_type : String) (amount : Nat)
  | Transferred (from_handle to_handle coin_type : String) (amount : Nat)
  | WalletLocked (handle : String) (locked_until_ms : Nat)
  | BioAuthCompleted (handle : String) (amount result : Nat)
  deriving DecidableEq, Repr

/-- The `balances: Bag` of a wallet: coin-type name to `Balance` value,
first-match association list.  `bagGet` is `bag.contains` / `bag.borrow`. -/
def bagGet : List (String × Nat) → String → Option Nat
  | [], _ => none
  | (k, v) :: rest, key => if k = key then some v else bagGet rest key

/-- Mutation through `bag.borrow_mut`: replace the value at the first
occurrence of the key, leaving everything else in place. -/
def bagSet : List (String × Nat) → String → Nat → List (String × Nat)
  | [], _, _ => []
  | (k, v) :: rest, key, value =>
      if k = key then (k, value) :: rest else (k, v) :: bagSet rest key value

/-- Insertion through `bag.add` (only ever called on an absent key in the
source): append the new entry. -/
def bagAdd (b : List (String × Nat)) (key : String) (value : Nat) :
    List (String × Nat) :=
  b ++ [(key, value)]

/-- The `RamWallet` struct (core.move lines 62-74).  `id` is the UID, Move
addresses are modelled as `Nat`. -/
structure RamWallet where
  id : Nat
  handle : String
  balances : List (String × Nat)
  linked_address : Option Nat
  locked_until_ms : Nat
  last_timestamp : Nat
  deriving DecidableEq, Repr

/-- The `RamRegistry` shared object (core.move lines 55-58): a table from
address to wallet ID, modelled as an association list in insertion order. -/
structure RamRegistry where
  address_to_wallet : List (Nat × Nat)
  deriving DecidableEq, Repr

/-- registry_contains_address, core.move lines 164-166. -/
def registry_contains_address (r : RamRegistry) (addr : Nat) : Bool :=
  (r.address_to_wallet.find? (fun p => p.1 == addr)).isSome

/-- registry_add_address, core.move lines 168-170.  `table::add` would abort
on a present key; every call site in the source first asserts absence, so
append models it on the reachable inputs. -/
def registry_add_address (r : RamRegistry) (addr wallet_id : Nat) : RamRegistry :=
  { r with address_to_wallet := r.address_to_wallet ++ [(addr, wallet_id)] }

/-- registry_get_wallet_id, core.move lines 172-175. -/
def registry_get_wallet_id (r : RamRegistry) (addr : Nat) : Except MoveErr Nat :=
  match r.address_to_wallet.find? (fun p => p.1 == addr) with
  | some p => .ok p.2
  | none => .error .EAddressNotFound

/-- is_wallet_locked, core.move lines 222-225. -/
def is_wallet_locked (w : RamWallet) (clock : Nat) : Bool :=
  clock < w.locked_until_ms

/-- assert_wallet_unlocked, core.move lines 228-230. -/
def assert_wallet_unlocked (w : RamWallet) (clock : Nat) : Except MoveErr Unit :=
  if is_wallet_locked w clock then .error .EWalletLocked else .ok ()

/-- lock_wallet, core.move lines 233-240: extend-only lock to
`now + LOCK_DURATION_MS`. -/
def lock_wallet (w : RamWallet) (clock : Nat) : RamWallet :=
  let lock_until := clock + LOCK_DURATION_MS
  if lock_until > w.locked_until_ms then
    { w with locked_until_ms := lock_until }
  else
    w

/-- new_wallet, core.move lines 244-256. -/
def new_wallet (handle : String) (fresh_id : Nat) : RamWallet :=
  { id := fresh_id
    handle := handle
    balances := []
    linked_address := none
    locked_until_ms := 0
    last_timestamp := 0 }

/-! ## ram::bioguard (bioguard.move) -/

/-- apply_bioauth, bioguard.move lines 26-76.

Checks, in source order: handle match (abort `ENotOwner`), then the enclave
signature verification — WHICH IS COMMENTED OUT IN THE SOURCE (bioguard.move
lines 44-52, marked "COMMENTED FOR TESTING - Re-enable for production"), so
the `signature` and `enclave` arguments are accepted but never used — then the
replay check (abort `EReplayAttempt`), then `last_timestamp := timestamp`,
then on a duress verdict `lock_wallet` plus a `WalletLocked` event, and
finally a `BioAuthCompleted` event. -/
def apply_bioauth (wallet : RamWallet) (handle : String) (amount result : Nat)
    (transcript : String) (timestamp : Nat) (signature : List Nat)
    (enclave : Enclave) (clock : Nat) : Except MoveErr (RamWallet × List Event) :=
  if wallet.handle ≠ handle then .error .ENotOwner
  else
    -- Signature verification is commented out in the source; `signature`,
    -- `enclave`, `amount`, `transcript` are not consulted for validity.
    if ¬ timestamp > wallet.last_timestamp then .error .EReplayAttempt
    else
      let w1 : RamWallet := { wallet with last_timestamp := timestamp }
      if result = BIOAUTH_DURESS then
        let w2 := lock_wallet w1 clock
        .ok (w2, [.WalletLocked w2.handle w2.locked_until_ms,
                  .BioAuthCompleted w2.handle amount result])
      else
        .ok (w1, [.BioAuthCompleted w1.handle amount result])

/-- lock_my_wallet, bioguard.move lines 81-98: owner self-lock.  `sender` is
`ctx.sender()`. -/
def lock_my_wallet (wallet : RamWallet) (clock : Nat) (sender : Nat) :
    Except MoveErr (RamWallet × List Event) :=
  match wallet.linked_address with
  | none => .error .EWalletNotLinked
  | some linked =>
      if sender ≠ linked then .error .ENotOwner
      else
        let w := lock_wallet wallet clock
        .ok (w, [.WalletLocked w.handle w.locked_until_ms])

/-- remaining_lock_time, bioguard.move lines 101-110. -/
def remaining_lock_time (wallet : RamWallet) (clock : Nat) : Nat :=
  if clock ≥ wallet.locked_until_ms then 0 else wallet.locked_until_ms - clock

/-! ## ram::wallet (wallet.move) -/

/-- create_wallet, wallet.move lines 20-57: signed self-registration.
`sender` is `ctx.sender()` and `fresh_id` the UID minted by `object::new`.
Note the source does NOT auto-link the creator in this mode and sets the new
wallet's `last_timestamp` to the attested `timestamp`. -/
def create_wallet (registry : RamRegistry) (handle : String) (timestamp : Nat)
    (signature : List Nat) (enclave : Enclave) (sender fresh_id : Nat) :
    Except MoveErr (RamRegistry × RamWallet × List Event) :=
  if registry_contains_address registry sender then .error .EAddressAlreadyExists
  else if ¬ enclave.verify CREATE_WALLET_INTENT timestamp
      (.CreateWallet handle) signature then .error .EInvalidSignature
  else
    let wallet := { new_wallet handle fresh_id with last_timestamp := timestamp }
    let registry' := registry_add_address registry sender fresh_id
    .ok (registry', wallet, [.WalletCreated handle fresh_id])

/-- create_wallet_no_sig, wallet.move lines 60-87: backend auto-creation,
auto-links the creator's address. -/
def create_wallet_no_sig (registry : RamRegistry) (handle : String)
    (sender fresh_id : Nat) :
    Except MoveErr (RamRegistry × RamWallet × List Event) :=
  if registry_contains_address registry sender then .error .EAddressAlreadyExists
  else
    let wallet := { new_wallet handle fresh_id with linked_address := some sender }
    let registry' := registry_add_address registry sender fresh_id
    .ok (registry', wallet,
      [.WalletCreated handle fresh_id, .AddressLinked handle sender])

/-- create_wallet_for_address, wallet.move lines 92-119: anyone may create a
wallet for a not-yet-registered address, auto-linking that address. -/
def create_wallet_for_address (registry : RamRegistry) (target_address : Nat)
    (handle : String) (fresh_id : Nat) :
    Except MoveErr (RamRegistry × RamWallet × List Event) :=
  if registry_contains_address registry target_address then
    .error .EAddressAlreadyExists
  else
    let wallet :=
      { new_wallet handle fresh_id with linked_address := some target_address }
    let registry' := registry_add_address registry target_address fresh_id
    .ok (registry', wallet,
      [.WalletCreated handle fresh_id, .AddressLinked handle target_address])

/-- link_address, wallet.move lines 124-153: signed linking of a Sui address;
`swap_or_fill` sets `linked_address` whether or not one was present. -/
def link_address (wallet : RamWallet) (addr : Nat) (timestamp : Nat)
    (signature : List Nat) (enclave : Enclave) :
    Except MoveErr (RamWallet × List Event) :=
  if ¬ enclave.verify LINK_ADDRESS_INTENT timestamp
      (.LinkAddress wallet.handle addr) signature then .error .EInvalidSignature
  else if ¬ timestamp > wallet.last_timestamp then .error .EReplayAttempt
  else
    .ok ({ wallet with last_timestamp := timestamp, linked_address := some addr },
      [.AddressLinked wallet.handle addr])

/-- deposit, wallet.move lines 159-185.  The generic coin type `T` appears as
its type-name key `tkey`; `amount` is `coin.value()`. -/
def deposit (wallet : RamWallet) (tkey : String) (amount : Nat) (clock : Nat) :
    Except MoveErr (RamWallet × List Event) :=
  if is_wallet_locked wallet clock then .error .EWalletLocked
  else
    let balances' :=
      match bagGet wallet.balances tkey with
      | some v => bagSet wallet.balances tkey (v + amount)
      | none => bagAdd wallet.balances tkey amount
    .ok ({ wallet with balances := balances' },
      [.Deposited wallet.handle tkey amount])

/-- withdraw, wallet.move lines 189-242.  Checks in source order: lock,
linked address present, sender is the linked address, coin_type matches the
generic type key, enclave signature, balance present and sufficient.  The
source performs NO replay check here and never touches `last_timestamp`.
Returns the withdrawn coin's value alongside the post-state. -/
def withdraw (wallet : RamWallet) (amount : Nat) (coin_type : String)
    (timestamp : Nat) (signature : List Nat) (enclave : Enclave) (clock : Nat)
    (sender : Nat) (tkey : String) :
    Except MoveErr (RamWallet × Nat × List Event) :=
  if is_wallet_locked wallet clock then .error .EWalletLocked
  else
    match wallet.linked_address with
    | none => .error .EWalletNotLinked
    | some linked =>
        if sender ≠ linked then .error .ENotOwner
        else if coin_type ≠ tkey then .error .ECoinTypeMismatch
        else if ¬ enclave.verify WITHDRAW_INTENT timestamp
            (.Withdraw wallet.handle amount coin_type) signature then
          .error .EInvalidSignature
        else
          match bagGet wallet.balances tkey with
          | none => .error .EInsufficientBalance
          | some v =>
              if v < amount then .error .EInsufficientBalance
              else
                .ok ({ wallet with balances := bagSet wallet.balances tkey (v - amount) },
                  amount, [.Withdrawn wallet.handle tkey amount])

/-- get_balance, wallet.move lines 247-255. -/
def get_balance (wallet : RamWallet) (tkey : String) : Nat :=
  match bagGet wallet.balances tkey with
  | some v => v
  | none => 0

/-! ## ram::transfers (transfers.move) -/

/-- transfer_internal, transfers.move lines 108-135: debit `from_w`, credit
`to_w`, creating the destination entry when absent.  The two wallets are
distinct `&mut` references in Move, so `from_w ≠ to_w` as objects. -/
def transfer_internal (from_w to_w : RamWallet) (tkey : String) (amount : Nat) :
    Except MoveErr (RamWallet × RamWallet) :=
  match bagGet from_w.balances tkey with
  | none => .error .EInsufficientBalance
  | some v =>
      if v < amount then .error .EInsufficientBalance
      else
        let from_w' := { from_w with balances := bagSet from_w.balances tkey (v - amount) }
        let to_w' :=
          match bagGet to_w.balances tkey with
          | some w => { to_w with balances := bagSet to_w.balances tkey (w + amount) }
          | none => { to_w with balances := bagAdd to_w.balances tkey amount }
        .ok (from_w', to_w')

/-- transfer_with_signature, transfers.move lines 26-73: the attested transfer
path.  Checks in source order: both wallets unlocked (source first), coin
type matches the generic type key, enclave signature over the transfer
payload, replay check against the SOURCE wallet, then
`last_timestamp := timestamp` on the source and the internal transfer.
No caller identity is consulted. -/
def transfer_with_signature (from_w to_w : RamWallet) (amount : Nat)
    (coin_type : String) (timestamp : Nat) (signature : List Nat)
    (enclave : Enclave) (clock : Nat) (tkey : String) :
    Except MoveErr (RamWallet × RamWallet × List Event) :=
  if is_wallet_locked from_w clock then .error .EWalletLocked
  else if is_wallet_locked to_w clock then .error .EWalletLocked
  else if coin_type ≠ tkey then .error .ECoinTypeMismatch
  else if ¬ enclave.verify TRANSFER_INTENT timestamp
      (.Transfer from_w.handle to_w.handle amount coin_type) signature then
    .error .EInvalidSignature
  else if ¬ timestamp > from_w.last_timestamp then .error .EReplayAttempt
  else
    match transfer_internal { from_w with last_timestamp := timestamp } to_w
        tkey amount with
    | .error e => .error e
    | .ok (f, t) =>
        .ok (f, t, [.Transferred f.handle t.handle tkey amount])

/-- transfer_with_wallet, transfers.move lines 79-104: the direct-signer
transfer path.  Checks in source order: both wallets unlocked, source wallet
has a linked address, sender is that address, then the internal transfer.
No attestation and no replay check. -/
def transfer_with_wallet (from_w to_w : RamWallet) (amount : Nat)
    (clock : Nat) (sender : Nat) (tkey : String) :
    Except MoveErr (RamWallet × RamWallet × List Event) :=
  if is_wallet_locked from_w clock then .error .EWalletLocked
  else if is_wallet_locked to_w clock then .error .EWalletLocked
  else
    match from_w.linked_address with
    | none => .error .EWalletNotLinked
    | some linked =>
        if sender ≠ linked then .error .ENotOwner
        else
          match transfer_internal from_w to_w tkey amount with
          | .error e => .error e
          | .ok (f, t) =>
              .ok (f, t, [.Transferred f.handle t.handle tkey amount])

/-! ## Association-list (Bag) lemmas -/

theorem bagGet_bagSet_self (b : List (String × Nat)) (k : String) (v : Nat)
    (h : (bagGet b k).isSome) : bagGet (bagSet b k v) k = some v := by
  induction b with
  | nil => simp [bagGet] at h
  | cons hd tl ih =>
      by_cases hk : hd.1 = k
      · simp [bagGet, bagSet, hk]
      · simp [bagGet, bagSet, hk] at h ⊢
        exact ih h

theorem bagGet_bagSet_ne (b : List (String × Nat)) (k k' : String) (v : Nat)
    (h : k' ≠ k) : bagGet (bagSet b k v) k' = bagGet b k' := by
  induction b with
  | nil => simp [bagGet, bagSet]
  | cons hd tl ih =>
      by_cases hk : hd.1 = k
      · simp [bagGet, bagSet, hk, Ne.symm h]
      · by_cases hk' : hd.1 = k'
        · simp [bagGet, bagSet, hk, hk', h]
        · simp [bagGet, bagSet, hk, hk', ih]

theorem bagGet_bagAdd_self (b : List (String × Nat)) (k : String) (v : Nat)
    (h : bagGet b k = none) : bagGet (bagAdd b k v) k = some v := by
  induction b with
  | nil => simp [bagGet, bagAdd]
  | cons hd tl ih =>
      by_cases hk : hd.1 = k
      · simp [bagGet, hk] at h
      · simp [bagGet, bagAdd, hk] at h ⊢
        exact ih h

theorem bagGet_bagAdd_ne (b : List (String × Nat)) (k k' : String) (v : Nat)
    (h : k' ≠ k) : bagGet (bagAdd b k v) k' = bagGet b k' := by
  induction b with
  | nil => simp [bagGet, bagAdd, Ne.symm h]
  | cons hd tl ih =>
      by_cases hk' : hd.1 = k'
      · simp [bagGet, bagAdd, hk']
      · simp [bagGet, bagAdd, hk'] at ih ⊢
        exact ih

/-! ## Concrete fixtures used by witnesses -/

/-- An enclave that accepts every signature (models a signature that verifies). -/
def enclaveAcceptAll : Enclave := ⟨fun _ _ _ _ => true⟩

/-- An enclave that rejects every signature (models an invalid signature). -/
def enclaveRejectAll : Enclave := ⟨fun _ _ _ _ => false⟩

/-- A sample unlocked wallet with a linked address and a SUI balance. -/
def wAlice : RamWallet :=
  { id := 1, handle := "alice", balances := [("SUI", 100)],
    linked_address := some 10, locked_until_ms := 0, last_timestamp := 0 }

/-- A second sample unlocked wallet. -/
def wBob : RamWallet :=
  { id := 2, handle := "bob", balances := [("SUI", 40)],
    linked_address := some 20, locked_until_ms := 0, last_timestamp := 0 }

/-- A wallet already locked far into the future. -/
def wCarolLocked : RamWallet :=
  { id := 3, handle := "carol", balances := [("SUI", 5)],
    linked_address := some 30, locked_until_ms := 200000000, last_timestamp := 0 }

/-! ## Helper lemmas -/

/-- lock_wallet realises the extend-only max update. -/
theorem lock_wallet_locked_until (w : RamWallet) (clock : Nat) :
    (lock_wallet w clock).locked_until_ms
      = max w.locked_until_ms (clock + LOCK_DURATION_MS) := by
  by_cases h : w.locked_until_ms < clock + LOCK_DURATION_MS
  · simp only [lock_wallet]
    rw [if_pos (by omega)]
    simp
    omega
  · simp only [lock_wallet]
    rw [if_neg (by omega)]
    omega

/-- lock_wallet changes only the lock field. -/
theorem lock_wallet_fields (w : RamWallet) (clock : Nat) :
    (lock_wallet w clock).id = w.id ∧
    (lock_wallet w clock).handle = w.handle ∧
    (lock_wallet w clock).balances = w.balances ∧
    (lock_wallet w clock).linked_address = w.linked_address ∧
    (lock_wallet w clock).last_timestamp = w.last_timestamp := by
  simp only [lock_wallet]
  split <;> simp

/-- transfer_internal only changes the two balance bags: every other wallet
field is preserved on success. -/
theorem transfer_internal_fields (from_w to_w : RamWallet) (tkey : String)
    (a : Nat) (f t : RamWallet)
    (h : transfer_internal from_w to_w tkey a = .ok (f, t)) :
    f.id = from_w.id ∧ f.handle = from_w.handle ∧
    f.linked_address = from_w.linked_address ∧
    f.locked_until_ms = from_w.locked_until_ms ∧
    f.last_timestamp = from_w.last_timestamp ∧
    t.id = to_w.id ∧ t.handle = to_w.handle ∧
    t.linked_address = to_w.linked_address ∧
    t.locked_until_ms = to_w.locked_until_ms ∧
    t.last_timestamp = to_w.last_timestamp := by
  unfold transfer_internal at h
  split at h
  · exact absurd h (by simp)
  · split at h
    · exact absurd h (by simp)
    · split at h <;>
        (simp at h; obtain ⟨hf, ht⟩ := h; subst hf; subst ht; simp)

/-! ## Claim theorems -/

/-- C9: whenever apply_bioauth is called with handle bytes that differ from
the wallet's stored handle, it aborts with NotOwner as its very first check;
the Except-error result carries no post-state and no events, which models the
Move abort leaving last_timestamp, lock_until and all balances unchanged and
emitting nothing. -/
theorem apply_bioauth_handle_mismatch_aborts
    (wallet : RamWallet) (handle : String) (amount result : Nat)
    (transcript : String) (timestamp : Nat) (signature : List Nat)
    (enclave : Enclave) (clock : Nat)
    (h : wallet.handle ≠ handle) :
    apply_bioauth wallet handle amount result transcript timestamp signature
      enclave clock = .error .ENotOwner := by
  simp [apply_bioauth, h]

/-- Witness for C9 at a concrete mismatching handle. -/
theorem apply_bioauth_handle_mismatch_aborts_witness :
    wAlice.handle ≠ "bob" ∧
    apply_bioauth wAlice "bob" 1 0 "t" 5 [] enclaveAcceptAll 0
      = .error .ENotOwner :=
  ⟨by decide,
   apply_bioauth_handle_mismatch_aborts wAlice "bob" 1 0 "t" 5 []
     enclaveAcceptAll 0 (by decide)⟩

/-- C4: every lock request (the duress branch of apply_bioauth and the owner
self-lock lock_my_wallet) sets lock_until to max(previous lock_until,
now + LOCK_DURATION_MS); when now + LOCK_DURATION_MS is below the previous
value the field is unchanged; and no operation of the module ever decreases
locked_until_ms. -/
theorem lock_extend_only (w : RamWallet) (clock : Nat) :
    ((lock_wallet w clock).locked_until_ms
        = max w.locked_until_ms (clock + LOCK_DURATION_MS))
    ∧ (clock + LOCK_DURATION_MS < w.locked_until_ms →
        (lock_wallet w clock).locked_until_ms = w.locked_until_ms)
    ∧ (∀ handle amount transcript ts sig enc w' evs,
        apply_bioauth w handle amount BIOAUTH_DURESS transcript ts sig enc clock
          = .ok (w', evs) →
        w'.locked_until_ms = max w.locked_until_ms (clock + LOCK_DURATION_MS))
    ∧ (∀ sender w' evs, lock_my_wallet w clock sender = .ok (w', evs) →
        w'.locked_until_ms = max w.locked_until_ms (clock + LOCK_DURATION_MS))
    ∧ (∀ handle amount result transcript ts sig enc w' evs,
        apply_bioauth w handle amount result transcript ts sig enc clock
          = .ok (w', evs) →
        w.locked_until_ms ≤ w'.locked_until_ms)
    ∧ (∀ addr ts sig enc w' evs,
        link_address w addr ts sig enc = .ok (w', evs) →
        w.locked_until_ms ≤ w'.locked_until_ms)
    ∧ (∀ tkey amount w' evs, deposit w tkey amount clock = .ok (w', evs) →
        w.locked_until_ms ≤ w'.locked_until_ms)
    ∧ (∀ amount ct ts sig enc sender tkey w' c evs,
        withdraw w amount ct ts sig enc clock sender tkey = .ok (w', c, evs) →
        w.locked_until_ms ≤ w'.locked_until_ms)
    ∧ (∀ to_w amount ct ts sig enc tkey f t evs,
        transfer_with_signature w to_w amount ct ts sig enc clock tkey
          = .ok (f, t, evs) →
        w.locked_until_ms ≤ f.locked_until_ms ∧
        to_w.locked_until_ms ≤ t.locked_until_ms)
    ∧ (∀ to_w amount sender tkey f t evs,
        transfer_with_wallet w to_w amount clock sender tkey = .ok (f, t, evs) →
        w.locked_until_ms ≤ f.locked_until_ms ∧
        to_w.locked_until_ms ≤ t.locked_until_ms) := by
  refine ⟨lock_wallet_locked_until w clock, ?_, ?_, ?_, ?_, ?_, ?_, ?_, ?_, ?_⟩
  · intro h
    rw [lock_wallet_locked_until]
    omega
  · intro handle amount transcript ts sig enc w' evs h
    unfold apply_bioauth at h
    split at h
    · exact absurd h (by simp)
    · split at h
      · exact absurd h (by simp)
      · rw [if_pos rfl] at h
        simp at h
        obtain ⟨hw, _⟩ := h
        subst hw
        rw [lock_wallet_locked_until]
  · intro sender w' evs h
    unfold lock_my_wallet at h
    split at h
    · exact absurd h (by simp)
    · split at h
      · exact absurd h (by simp)
      · simp at h
        obtain ⟨hw, _⟩ := h
        subst hw
        rw [lock_wallet_locked_until]
  · intro handle amount result transcript ts sig enc w' evs h
    unfold apply_bioauth at h
    split at h
    · exact absurd h (by simp)
    · split at h
      · exact absurd h (by simp)
      · split at h <;> simp at h <;> obtain ⟨hw, _⟩ := h <;> subst hw
        · rw [lock_wallet_locked_until]
          simp
        · simp
  · intro addr ts sig enc w' evs h
    unfold link_address at h
    split at h
    · exact absurd h (by simp)
    · split at h
      · exact absurd h (by simp)
      · simp at h
        obtain ⟨hw, _⟩ := h
        subst hw
        simp
  · intro tkey amount w' evs h
    unfold deposit at h
    split at h
    · exact absurd h (by simp)
    · simp at h
      obtain ⟨hw, _⟩ := h
      subst hw
      simp
  · intro amount ct ts sig enc sender tkey w' c evs h
    unfold withdraw at h
    split at h
    · exact absurd h (by simp)
    · split at h
      · exact absurd h (by simp)
      · split at h
        · exact absurd h (by simp)
        · split at h
          · exact absurd h (by simp)
          · split at h
            · exact absurd h (by simp)
            · split at h
              · exact absurd h (by simp)
              · split at h
                · exact absurd h (by simp)
                · simp at h
                  obtain ⟨hw, _⟩ := h
                  subst hw
                  simp
  · intro to_w amount ct ts sig enc tkey f t evs h
    unfold transfer_with_signature at h
    split at h
    · exact absurd h (by simp)
    · split at h
      · exact absurd h (by simp)
      · split at h
        · exact absurd h (by simp)
        · split at h
          · exact absurd h (by simp)
          · split at h
            · exact absurd h (by simp)
            · split at h
              · exact absurd h (by simp)
              · rename_i f0 t0 heq
                simp at h
                obtain ⟨hf, ht, _⟩ := h
                subst hf
                subst ht
                have := transfer_internal_fields _ _ _ _ _ _ heq
                simp [this.2.2.2.1, this.2.2.2.2.2.2.2.2.1]
  · intro to_w amount sender tkey f t evs h
    unfold transfer_with_wallet at h
    split at h
    · exact absurd h (by simp)
    · split at h
      · exact absurd h (by simp)
      · split at h
        · exact absurd h (by simp)
        · split at h
          · exact absurd h (by simp)
          · split at h
            · exact absurd h (by simp)
            · rename_i f0 t0 heq
              simp at h
              obtain ⟨hf, ht, _⟩ := h
              subst hf
              subst ht
              have := transfer_internal_fields _ _ _ _ _ _ heq
              simp [this.2.2.2.1, this.2.2.2.2.2.2.2.2.1]

/-- Witness for C4: a lock request below an existing lock leaves it unchanged;
a concrete duress application and a concrete self-lock both land on the max. -/
theorem lock_extend_only_witness :
    (lock_wallet wCarolLocked 5).locked_until_ms = wCarolLocked.locked_until_ms ∧
    ({ wAlice with last_timestamp := 9, locked_until_ms := 86400500 } :
        RamWallet).locked_until_ms
      = max wAlice.locked_until_ms (500 + LOCK_DURATION_MS) ∧
    wCarolLocked.locked_until_ms
      = max wCarolLocked.locked_until_ms (600 + LOCK_DURATION_MS) := by
  refine ⟨(lock_extend_only wCarolLocked 5).2.1 (by decide), ?_, ?_⟩
  · exact (lock_extend_only wAlice 500).2.2.1 "alice" 7 "t" 9 [] enclaveAcceptAll
      { wAlice with last_timestamp := 9, locked_until_ms := 86400500 }
      [.WalletLocked "alice" 86400500, .BioAuthCompleted "alice" 7 2]
      (by rfl)
  · exact (lock_extend_only wCarolLocked 600).2.2.2.1 30 wCarolLocked
      [.WalletLocked "carol" 200000000] (by rfl)

/-- C10: both transfer paths check the recipient's lock: when the destination
wallet is locked at call time, transfer_with_signature and
transfer_with_wallet abort with WalletLocked even though the source wallet is
unlocked; the Except-error result models the Move abort leaving both wallets
(and all balances) unchanged. -/
theorem transfer_requires_recipient_unlocked
    (from_w to_w : RamWallet) (amount : Nat) (coin_type : String)
    (timestamp : Nat) (signature : List Nat) (enclave : Enclave) (clock : Nat)
    (sender : Nat) (tkey : String)
    (h_src : ¬ clock < from_w.locked_until_ms)
    (h_dst : clock < to_w.locked_until_ms) :
    transfer_with_signature from_w to_w amount coin_type timestamp signature
        enclave clock tkey = .error .EWalletLocked ∧
    transfer_with_wallet from_w to_w amount clock sender tkey
      = .error .EWalletLocked := by
  constructor <;>
    simp [transfer_with_signature, transfer_with_wallet, is_wallet_locked,
      h_src, h_dst]

/-- Witness for C10: an unlocked source and a locked destination at time 100. -/
theorem transfer_requires_recipient_unlocked_witness :
    (¬ (100 : Nat) < wAlice.locked_until_ms) ∧
    ((100 : Nat) < wCarolLocked.locked_until_ms) ∧
    (transfer_with_signature wAlice wCarolLocked 5 "SUI" 7 [] enclaveAcceptAll
        100 "SUI" = .error .EWalletLocked ∧
     transfer_with_wallet wAlice wCarolLocked 5 100 10 "SUI"
       = .error .EWalletLocked) :=
  ⟨by decide, by decide,
   transfer_requires_recipient_unlocked wAlice wCarolLocked 5 "SUI" 7 []
     enclaveAcceptAll 100 10 "SUI" (by decide) (by decide)⟩

/-- C1: blind duress scenario.  A wallet unlocked at t0 with a fresh
attestation timestamp t1 accepts apply_bioauth with a duress verdict at time
t1: the call succeeds, advances last_timestamp to t1, locks until
t1 + LOCK_DURATION_MS, and leaves the balances untouched; a subsequent
validly-signed attested transfer at timestamp t2 > t1, evaluated while the
current time is below the lock, aborts with WalletLocked, the Except-error
modelling the Move abort that leaves every balance of both wallets unchanged. -/
theorem blind_duress_scenario
    (w to_w : RamWallet) (t0 t1 t2 now2 : Nat)
    (amount1 : Nat) (transcript : String) (sig1 : List Nat) (enc : Enclave)
    (amount2 : Nat) (coin_type : String) (sig2 : List Nat) (tkey : String)
    (h_unlocked : w.locked_until_ms ≤ t0)
    (h_fresh : w.last_timestamp < t1)
    (h01 : t0 < t1) (h12 : t1 < t2)
    (h_now2 : now2 < t1 + LOCK_DURATION_MS)
    (h_sig2 : enc.verify TRANSFER_INTENT t2
      (.Transfer w.handle to_w.handle amount2 coin_type) sig2 = true) :
    ∃ w' evs,
      apply_bioauth w w.handle amount1 BIOAUTH_DURESS transcript t1 sig1 enc t1
          = .ok (w', evs)
        ∧ w'.last_timestamp = t1
        ∧ w'.locked_until_ms = t1 + LOCK_DURATION_MS
        ∧ w'.balances = w.balances
        ∧ transfer_with_signature w' to_w amount2 coin_type t2 sig2 enc now2 tkey
            = .error .EWalletLocked := by
  refine ⟨{ w with last_timestamp := t1, locked_until_ms := t1 + LOCK_DURATION_MS },
    [.WalletLocked w.handle (t1 + LOCK_DURATION_MS),
     .BioAuthCompleted w.handle amount1 BIOAUTH_DURESS],
    ?_, rfl, rfl, rfl, ?_⟩
  · unfold apply_bioauth
    rw [if_neg (by simp)]
    rw [if_neg (by omega)]
    rw [if_pos rfl]
    unfold lock_wallet
    rw [if_pos (by simp; omega)]
  · unfold transfer_with_signature
    rw [if_pos (by simp [is_wallet_locked]; omega)]

/-- Witness for C1 at concrete inputs. -/
theorem blind_duress_scenario_witness :
    ∃ w' evs,
      apply_bioauth wAlice wAlice.handle 30 BIOAUTH_DURESS "send 30" 5 []
          enclaveAcceptAll 5 = .ok (w', evs)
        ∧ w'.last_timestamp = 5
        ∧ w'.locked_until_ms = 5 + LOCK_DURATION_MS
        ∧ w'.balances = wAlice.balances
        ∧ transfer_with_signature w' wBob 30 "SUI" 9 [] enclaveAcceptAll 10 "SUI"
            = .error .EWalletLocked :=
  blind_duress_scenario wAlice wBob 0 5 9 10 30 "send 30" [] enclaveAcceptAll
    30 "SUI" [] "SUI" (by decide) (by decide) (by decide) (by decide)
    (by decide) (by decide)

/-- transfer_internal on success: the source entry is debited exactly, the
destination entry is credited exactly (created when absent), and every other
key of both bags is untouched. -/
theorem transfer_internal_balances (from_w to_w : RamWallet) (tkey : String)
    (a : Nat) (f t : RamWallet)
    (h : transfer_internal from_w to_w tkey a = .ok (f, t)) :
    (∃ v, bagGet from_w.balances tkey = some v ∧ a ≤ v ∧
      bagGet f.balances tkey = some (v - a)) ∧
    bagGet t.balances tkey = some ((bagGet to_w.balances tkey).getD 0 + a) ∧
    (∀ k, k ≠ tkey → bagGet f.balances k = bagGet from_w.balances k ∧
      bagGet t.balances k = bagGet to_w.balances k) := by
  unfold transfer_internal at h
  split at h
  · exact absurd h (by simp)
  · rename_i v hv
    split at h
    · exact absurd h (by simp)
    · rename_i hge
      split at h <;> rename_i hw <;> simp at h <;> obtain ⟨hf, ht⟩ := h <;>
        subst hf <;> subst ht
      · refine ⟨⟨v, hv, by omega, ?_⟩, ?_, ?_⟩
        · simpa using bagGet_bagSet_self from_w.balances tkey (v - a) (by simp [hv])
        · rename_i wv
          simp [hw]
          simpa using bagGet_bagSet_self to_w.balances tkey (wv + a) (by simp [hw])
        · intro k hk
          simp [bagGet_bagSet_ne _ _ _ _ hk]
      · refine ⟨⟨v, hv, by omega, ?_⟩, ?_, ?_⟩
        · simpa using bagGet_bagSet_self from_w.balances tkey (v - a) (by simp [hv])
        · simp [hw]
          simpa using bagGet_bagAdd_self to_w.balances tkey a hw
        · intro k hk
          simp [bagGet_bagSet_ne _ _ _ _ hk, bagGet_bagAdd_ne _ _ _ _ hk]

/-- transfer_internal aborts with InsufficientBalance when the source entry is
absent or too small. -/
theorem transfer_internal_insufficient (from_w to_w : RamWallet) (tkey : String)
    (a : Nat)
    (h : bagGet from_w.balances tkey = none ∨
      ∃ v, bagGet from_w.balances tkey = some v ∧ v < a) :
    transfer_internal from_w to_w tkey a = .error .EInsufficientBalance := by
  unfold transfer_internal
  rcases h with h | ⟨v, hv, hlt⟩
  · rw [h]
  · rw [hv]
    simp [hlt]

/-- C5: no negative balances.  A debit (the debit half of transfer_internal,
or the balance step of withdraw once its earlier guards pass) whose amount
exceeds the entry, or whose asset has no entry, aborts with
InsufficientBalance — the Except-error modelling the Move abort that leaves
every balance unchanged — and every successful debit satisfies
amount ≤ entry, so the Nat subtraction never underflows and no balance goes
below zero. -/
theorem no_negative_balances
    (from_w to_w w : RamWallet) (tkey : String) (a : Nat) (ts : Nat)
    (sig : List Nat) (enc : Enclave) (clock sender : Nat) :
    ((bagGet from_w.balances tkey = none ∨
        ∃ v, bagGet from_w.balances tkey = some v ∧ v < a) →
      transfer_internal from_w to_w tkey a = .error .EInsufficientBalance)
    ∧ (¬ clock < w.locked_until_ms → w.linked_address = some sender →
        enc.verify WITHDRAW_INTENT ts (.Withdraw w.handle a tkey) sig = true →
        (bagGet w.balances tkey = none ∨
          ∃ v, bagGet w.balances tkey = some v ∧ v < a) →
        withdraw w a tkey ts sig enc clock sender tkey
          = .error .EInsufficientBalance)
    ∧ (∀ f t, transfer_internal from_w to_w tkey a = .ok (f, t) →
        ∃ v, bagGet from_w.balances tkey = some v ∧ a ≤ v ∧
          bagGet f.balances tkey = some (v - a))
    ∧ (∀ w' c evs, withdraw w a tkey ts sig enc clock sender tkey
          = .ok (w', c, evs) →
        ∃ v, bagGet w.balances tkey = some v ∧ a ≤ v ∧
          bagGet w'.balances tkey = some (v - a)) := by
  refine ⟨transfer_internal_insufficient from_w to_w tkey a, ?_, ?_, ?_⟩
  · intro hlock hlink hsig hins
    rcases hins with h | ⟨v, hv, hlt⟩
    · simp [withdraw, is_wallet_locked, hlock, hlink, hsig, h]
    · simp [withdraw, is_wallet_locked, hlock, hlink, hsig, hv, hlt]
  · intro f t h
    exact (transfer_internal_balances from_w to_w tkey a f t h).1
  · intro w' c evs h
    unfold withdraw at h
    split at h
    · exact absurd h (by simp)
    · split at h
      · exact absurd h (by simp)
      · split at h
        · exact absurd h (by simp)
        · split at h
          · exact absurd h (by simp)
          · split at h
            · exact absurd h (by simp)
            · split at h
              · exact absurd h (by simp)
              · rename_i v hv
                split at h
                · exact absurd h (by simp)
                · rename_i hge
                  simp at h
                  obtain ⟨hw, _⟩ := h
                  subst hw
                  refine ⟨v, hv, by omega, ?_⟩
                  simpa using bagGet_bagSet_self w.balances tkey (v - a)
                    (by simp [hv])

/-- Witness for C5: concrete insufficient and sufficient debits. -/
theorem no_negative_balances_witness :
    (transfer_internal wAlice wBob "SUI" 1000 = .error .EInsufficientBalance) ∧
    (withdraw wCarolLocked 7 "SUI" 5 [] enclaveAcceptAll 300000000 30 "SUI"
      = .error .EInsufficientBalance) ∧
    (∃ v, bagGet wAlice.balances "SUI" = some v ∧ 30 ≤ v ∧
      bagGet ({ wAlice with balances := [("SUI", 70)] } : RamWallet).balances "SUI"
        = some (v - 30)) := by
  refine ⟨?_, ?_, ?_⟩
  · exact (no_negative_balances wAlice wBob wAlice "SUI" 1000 5 []
      enclaveAcceptAll 0 10).1 (by right; exact ⟨100, by decide, by decide⟩)
  · exact (no_negative_balances wAlice wBob wCarolLocked "SUI" 7 5 []
      enclaveAcceptAll 300000000 30).2.1 (by decide) (by decide) (by rfl)
      (by right; exact ⟨5, by decide, by decide⟩)
  · exact (no_negative_balances wAlice wBob wAlice "SUI" 30 5 []
      enclaveAcceptAll 0 10).2.2.1
      { wAlice with balances := [("SUI", 70)] }
      { wBob with balances := [("SUI", 70)] } (by rfl)

/-- get_balance is the 0-defaulted bag lookup. -/
theorem get_balance_eq (w : RamWallet) (k : String) :
    get_balance w k = (bagGet w.balances k).getD 0 := by
  unfold get_balance
  rcases bagGet w.balances k <;> simp

/-- Conservation statement for the internal transfer helper. -/
theorem transfer_internal_conservation (from_w to_w : RamWallet)
    (tkey : String) (a : Nat) (f t : RamWallet)
    (h : transfer_internal from_w to_w tkey a = .ok (f, t)) :
    get_balance f tkey + a = get_balance from_w tkey ∧
    get_balance t tkey = get_balance to_w tkey + a ∧
    (∀ k, k ≠ tkey → bagGet f.balances k = bagGet from_w.balances k ∧
      bagGet t.balances k = bagGet to_w.balances k) ∧
    get_balance f tkey + get_balance t tkey
      = get_balance from_w tkey + get_balance to_w tkey := by
  obtain ⟨⟨v, hv, hle, hf⟩, ht, hothers⟩ :=
    transfer_internal_balances _ _ _ _ _ _ h
  refine ⟨?_, ?_, hothers, ?_⟩
  · rw [get_balance_eq, get_balance_eq, hv, hf]
    simp
    omega
  · rw [get_balance_eq, get_balance_eq, ht]
    simp
  · rw [get_balance_eq, get_balance_eq, get_balance_eq, get_balance_eq,
      hv, hf, ht]
    simp
    omega

/-- C6: balance conservation.  On every successful transfer through either
path, the sender's entry for the transferred asset decreases by exactly the
amount, the receiver's increases by exactly the amount (its entry being
created when absent), every other asset entry of both wallets is unchanged,
and the summed supply of the asset over the two wallets is invariant; no
other wallet is referenced by either operation, so the total supply over all
wallets is invariant as well. -/
theorem transfer_balance_conservation
    (from_w to_w : RamWallet) (amount : Nat) (ct : String) (ts : Nat)
    (sig : List Nat) (enc : Enclave) (clock sender : Nat) (tkey : String)
    (f t : RamWallet) (evs : List Event) :
    (transfer_with_signature from_w to_w amount ct ts sig enc clock tkey
        = .ok (f, t, evs) →
      get_balance f tkey + amount = get_balance from_w tkey ∧
      get_balance t tkey = get_balance to_w tkey + amount ∧
      (∀ k, k ≠ tkey → bagGet f.balances k = bagGet from_w.balances k ∧
        bagGet t.balances k = bagGet to_w.balances k) ∧
      get_balance f tkey + get_balance t tkey
        = get_balance from_w tkey + get_balance to_w tkey) ∧
    (transfer_with_wallet from_w to_w amount clock sender tkey
        = .ok (f, t, evs) →
      get_balance f tkey + amount = get_balance from_w tkey ∧
      get_balance t tkey = get_balance to_w tkey + amount ∧
      (∀ k, k ≠ tkey → bagGet f.balances k = bagGet from_w.balances k ∧
        bagGet t.balances k = bagGet to_w.balances k) ∧
      get_balance f tkey + get_balance t tkey
        = get_balance from_w tkey + get_balance to_w tkey) := by
  constructor
  · intro h
    unfold transfer_with_signature at h
    split at h
    · exact absurd h (by simp)
    · split at h
      · exact absurd h (by simp)
      · split at h
        · exact absurd h (by simp)
        · split at h
          · exact absurd h (by simp)
          · split at h
            · exact absurd h (by simp)
            · split at h
              · exact absurd h (by simp)
              · rename_i f0 t0 heq
                simp at h
                obtain ⟨hf, ht, _⟩ := h
                subst hf
                subst ht
                have hc := transfer_internal_conservation _ _ _ _ _ _ heq
                simpa [get_balance_eq] using hc
  · intro h
    unfold transfer_with_wallet at h
    split at h
    · exact absurd h (by simp)
    · split at h
      · exact absurd h (by simp)
      · split at h
        · exact absurd h (by simp)
        · split at h
          · exact absurd h (by simp)
          · split at h
            · exact absurd h (by simp)
            · rename_i f0 t0 heq
              simp at h
              obtain ⟨hf, ht, _⟩ := h
              subst hf
              subst ht
              exact transfer_internal_conservation _ _ _ _ _ _ heq

/-- Witness for C6: a concrete 30-unit SUI transfer through each path. -/
theorem transfer_balance_conservation_witness :
    (get_balance ({ wAlice with last_timestamp := 5, balances := [("SUI", 70)] } :
          RamWallet) "SUI" + 30 = get_balance wAlice "SUI" ∧
      get_balance ({ wBob with balances := [("SUI", 70)] } : RamWallet) "SUI"
        = get_balance wBob "SUI" + 30) ∧
    (get_balance ({ wAlice with balances := [("SUI", 70)] } : RamWallet) "SUI"
        + 30 = get_balance wAlice "SUI") := by
  constructor
  · have h := (transfer_balance_conservation wAlice wBob 30 "SUI" 5 []
      enclaveAcceptAll 0 10 "SUI"
      { wAlice with last_timestamp := 5, balances := [("SUI", 70)] }
      { wBob with balances := [("SUI", 70)] }
      [.Transferred "alice" "bob" "SUI" 30]).1 (by rfl)
    exact ⟨h.1, h.2.1⟩
  · have h := (transfer_balance_conservation wAlice wBob 30 "SUI" 5 []
      enclaveAcceptAll 0 10 "SUI"
      { wAlice with balances := [("SUI", 70)] }
      { wBob with balances := [("SUI", 70)] }
      [.Transferred "alice" "bob" "SUI" 30]).2 (by rfl)
    exact h.1

/-- A wallet with no linked address. -/
def wDana : RamWallet :=
  { id := 4, handle := "dana", balances := [("SUI", 50)],
    linked_address := none, locked_until_ms := 0, last_timestamp := 0 }

/-- transfer_internal only ever aborts with InsufficientBalance. -/
theorem transfer_internal_error_ne (from_w to_w : RamWallet) (tkey : String)
    (a : Nat) (e : MoveErr)
    (h : transfer_internal from_w to_w tkey a = .error e) :
    e = .EInsufficientBalance := by
  unfold transfer_internal at h
  split at h
  · injection h with h'
    exact h'.symm
  · split at h
    · injection h with h'
      exact h'.symm
    · exact absurd h (by simp)

/-- transfer_with_signature can only abort with WalletLocked,
CoinTypeMismatch, InvalidSignature, ReplayAttempt or InsufficientBalance. -/
theorem transfer_with_signature_error_cases (from_w to_w : RamWallet)
    (amount : Nat) (ct : String) (ts : Nat) (sig : List Nat) (enc : Enclave)
    (clock : Nat) (tkey : String) (e : MoveErr)
    (h : transfer_with_signature from_w to_w amount ct ts sig enc clock tkey
      = .error e) :
    e = .EWalletLocked ∨ e = .ECoinTypeMismatch ∨ e = .EInvalidSignature ∨
    e = .EReplayAttempt ∨ e = .EInsufficientBalance := by
  unfold transfer_with_signature at h
  split at h
  · injection h with h'
    exact Or.inl h'.symm
  · split at h
    · injection h with h'
      exact Or.inl h'.symm
    · split at h
      · injection h with h'
        exact Or.inr (Or.inl h'.symm)
      · split at h
        · injection h with h'
          exact Or.inr (Or.inr (Or.inl h'.symm))
        · split at h
          · injection h with h'
            exact Or.inr (Or.inr (Or.inr (Or.inl h'.symm)))
          · split at h
            · rename_i e0 heq
              injection h with h'
              subst h'
              exact Or.inr (Or.inr (Or.inr (Or.inr
                (transfer_internal_error_ne _ _ _ _ _ heq))))
            · exact absurd h (by simp)

/-- transfer_internal succeeds whenever the source holds enough. -/
theorem transfer_internal_ok_of_sufficient (from_w to_w : RamWallet)
    (tkey : String) (a v : Nat)
    (hv : bagGet from_w.balances tkey = some v) (hle : a ≤ v) :
    ∃ f t, transfer_internal from_w to_w tkey a = .ok (f, t) := by
  unfold transfer_internal
  rw [hv]
  simp only [Nat.not_lt.mpr hle, if_false]
  exact ⟨_, _, rfl⟩

/-- C7 counterexample: a fully-valid attested withdraw (unlocked wallet,
matching coin type, always-verifying enclave) submitted by a caller who is
not the linked signer aborts with NotOwner, refuting the claim that the
attested path never fails with NotOwner. -/
theorem attested_withdraw_notowner_counterexample :
    withdraw wAlice 10 "SUI" 5 [] enclaveAcceptAll 0 99 "SUI"
      = .error .ENotOwner := by rfl

/-- C7 (amended): the attested transfer path consults no caller identity —
it can never fail with NotOwner or WalletNotLinked, and succeeds whenever
signature, replay, lock, coin-type and balance preconditions hold — whereas
the attested withdraw additionally requires a linked signer equal to the
caller, aborting with WalletNotLinked when no signer is linked and NotOwner
when the caller differs. -/
theorem attested_path_caller_requirements
    (from_w to_w w : RamWallet) (amount a : Nat) (ct : String) (ts : Nat)
    (sig : List Nat) (enc : Enclave) (clock sender : Nat) (tkey : String) :
    (transfer_with_signature from_w to_w amount ct ts sig enc clock tkey
        ≠ .error .ENotOwner ∧
     transfer_with_signature from_w to_w amount ct ts sig enc clock tkey
        ≠ .error .EWalletNotLinked)
    ∧ (¬ clock < from_w.locked_until_ms → ¬ clock < to_w.locked_until_ms →
        ct = tkey →
        enc.verify TRANSFER_INTENT ts
          (.Transfer from_w.handle to_w.handle amount ct) sig = true →
        ts > from_w.last_timestamp →
        ∀ v, bagGet from_w.balances tkey = some v → amount ≤ v →
        ∃ f t evs, transfer_with_signature from_w to_w amount ct ts sig enc
            clock tkey = .ok (f, t, evs))
    ∧ (w.linked_address = none → ¬ clock < w.locked_until_ms →
        withdraw w a ct ts sig enc clock sender tkey
          = .error .EWalletNotLinked)
    ∧ (∀ linked, w.linked_address = some linked → sender ≠ linked →
        ¬ clock < w.locked_until_ms →
        withdraw w a ct ts sig enc clock sender tkey = .error .ENotOwner) := by
  refine ⟨⟨?_, ?_⟩, ?_, ?_, ?_⟩
  · intro hcontra
    rcases transfer_with_signature_error_cases _ _ _ _ _ _ _ _ _ _ hcontra with
      h | h | h | h | h <;> simp at h
  · intro hcontra
    rcases transfer_with_signature_error_cases _ _ _ _ _ _ _ _ _ _ hcontra with
      h | h | h | h | h <;> simp at h
  · intro h1 h2 h3 h4 h5 v hv hle
    unfold transfer_with_signature
    rw [if_neg (by simp [is_wallet_locked, h1])]
    rw [if_neg (by simp [is_wallet_locked, h2])]
    rw [if_neg (by simp [h3])]
    rw [if_neg (by simp [h4])]
    rw [if_neg (by omega)]
    obtain ⟨f, t, heq⟩ := transfer_internal_ok_of_sufficient
      { from_w with last_timestamp := ts } to_w tkey amount v (by simpa using hv)
      hle
    rw [heq]
    exact ⟨f, t, _, rfl⟩
  · intro hnone hlock
    unfold withdraw
    rw [if_neg (by simp [is_wallet_locked, hlock])]
    rw [hnone]
  · intro linked hsome hneq hlock
    unfold withdraw
    rw [if_neg (by simp [is_wallet_locked, hlock])]
    rw [hsome]
    simp [hneq]

/-- Witness for C7 (amended) at concrete inputs: a successful attested
transfer, a withdraw on an unlinked wallet, and a withdraw by a stranger. -/
theorem attested_path_caller_requirements_witness :
    (∃ f t evs, transfer_with_signature wAlice wBob 30 "SUI" 5 []
        enclaveAcceptAll 0 "SUI" = .ok (f, t, evs)) ∧
    withdraw wDana 10 "SUI" 5 [] enclaveAcceptAll 0 99 "SUI"
      = .error .EWalletNotLinked ∧
    withdraw wAlice 10 "SUI" 5 [] enclaveAcceptAll 0 99 "SUI"
      = .error .ENotOwner := by
  refine ⟨?_, ?_, ?_⟩
  · exact (attested_path_caller_requirements wAlice wBob wAlice 30 10 "SUI" 5
      [] enclaveAcceptAll 0 99 "SUI").2.1 (by decide) (by decide) rfl (by rfl)
      (by decide) 100 (by rfl) (by decide)
  · exact (attested_path_caller_requirements wAlice wBob wDana 30 10 "SUI" 5
      [] enclaveAcceptAll 0 99 "SUI").2.2.1 (by rfl) (by decide)
  · exact (attested_path_caller_requirements wAlice wBob wAlice 30 10 "SUI" 5
      [] enclaveAcceptAll 0 99 "SUI").2.2.2 10 (by rfl) (by decide) (by decide)

/-- Appending one registry entry: lookup afterwards succeeds for the old
entries and for the new address. -/
theorem find_append_isSome (l : List (Nat × Nat)) (a wid a' : Nat) :
    ((l ++ [(a, wid)]).find? (fun p => p.1 == a')).isSome
      = ((l.find? (fun p => p.1 == a')).isSome || (a == a')) := by
  induction l with
  | nil => by_cases h : a == a' <;> simp [List.find?, h]
  | cons hd tl ih =>
      by_cases h : hd.1 == a'
      · simp [List.find?, h]
      · by_cases h2 : a == a' <;> simp [List.find?, h, h2, ih]

/-- C8: registry uniqueness.  A not-yet-registered identity passes the
uniqueness check in every creation mode (the two unsigned modes succeed
outright and append exactly one entry; the signed mode can no longer fail
with AddressAlreadyExists); once an identity is registered — in particular
right after a successful creation — every further creation targeting it, in
any mode, aborts with AddressAlreadyExists, the Except-error modelling the
Move abort that leaves the registry unchanged.  The three creation functions
are the only operations of the modules producing a registry, and each
success appends exactly one entry, so the identity-to-wallet mapping is
append-only with no removal. -/
theorem registry_uniqueness
    (r : RamRegistry) (identity : Nat) (handle h2 : String) (ts : Nat)
    (sig : List Nat) (enc : Enclave) (fid fid2 : Nat) :
    (registry_contains_address r identity = false →
      (∃ w evs, create_wallet_no_sig r handle identity fid
          = .ok (registry_add_address r identity fid, w, evs)) ∧
      (∃ w evs, create_wallet_for_address r identity h2 fid
          = .ok (registry_add_address r identity fid, w, evs)) ∧
      create_wallet r handle ts sig enc identity fid
        ≠ .error .EAddressAlreadyExists)
    ∧ (registry_contains_address r identity = true →
        create_wallet r handle ts sig enc identity fid
            = .error .EAddressAlreadyExists ∧
        create_wallet_no_sig r handle identity fid
            = .error .EAddressAlreadyExists ∧
        create_wallet_for_address r identity handle fid
            = .error .EAddressAlreadyExists)
    ∧ (∀ r' w evs,
        create_wallet_no_sig r handle identity fid = .ok (r', w, evs) →
        r'.address_to_wallet = r.address_to_wallet ++ [(identity, fid)] ∧
        create_wallet_no_sig r' h2 identity fid2
            = .error .EAddressAlreadyExists ∧
        create_wallet_for_address r' identity h2 fid2
            = .error .EAddressAlreadyExists ∧
        create_wallet r' h2 ts sig enc identity fid2
            = .error .EAddressAlreadyExists)
    ∧ (∀ r' w evs,
        create_wallet r handle ts sig enc identity fid = .ok (r', w, evs) →
        r'.address_to_wallet = r.address_to_wallet ++ [(identity, fid)])
    ∧ (∀ r' w evs,
        create_wallet_for_address r identity handle fid = .ok (r', w, evs) →
        r'.address_to_wallet = r.address_to_wallet ++ [(identity, fid)]) := by
  have hcontains_add : ∀ rr : RamRegistry, ∀ wid : Nat,
      registry_contains_address (registry_add_address rr identity wid) identity
        = true := by
    intro rr wid
    simp [registry_contains_address, registry_add_address, find_append_isSome]
  refine ⟨?_, ?_, ?_, ?_, ?_⟩
  · intro hfree
    refine ⟨⟨{ new_wallet handle fid with linked_address := some identity },
        [.WalletCreated handle fid, .AddressLinked handle identity], ?_⟩,
      ⟨{ new_wallet h2 fid with linked_address := some identity },
        [.WalletCreated h2 fid, .AddressLinked h2 identity], ?_⟩, ?_⟩
    · simp [create_wallet_no_sig, hfree]
    · simp [create_wallet_for_address, hfree]
    · intro hcontra
      unfold create_wallet at hcontra
      rw [if_neg (by simp [hfree])] at hcontra
      split at hcontra
      · exact absurd hcontra (by simp)
      · exact absurd hcontra (by simp)
  · intro hreg
    exact ⟨by simp [create_wallet, hreg], by simp [create_wallet_no_sig, hreg],
      by simp [create_wallet_for_address, hreg]⟩
  · intro r' w evs h
    unfold create_wallet_no_sig at h
    split at h
    · exact absurd h (by simp)
    · rename_i hfree
      simp at h
      obtain ⟨hr, _⟩ := h
      subst hr
      refine ⟨rfl, ?_, ?_, ?_⟩
      · simp [create_wallet_no_sig, hcontains_add]
      · simp [create_wallet_for_address, hcontains_add]
      · simp [create_wallet, hcontains_add]
  · intro r' w evs h
    unfold create_wallet at h
    split at h
    · exact absurd h (by simp)
    · split at h
      · exact absurd h (by simp)
      · simp at h
        obtain ⟨hr, _⟩ := h
        subst hr
        rfl
  · intro r' w evs h
    unfold create_wallet_for_address at h
    split at h
    · exact absurd h (by simp)
    · simp at h
      obtain ⟨hr, _⟩ := h
      subst hr
      rfl

/-- Witness for C8 on the empty registry: the first creation for identity 5
succeeds and the immediate re-creation attempts all fail. -/
theorem registry_uniqueness_witness :
    (∃ w evs, create_wallet_no_sig ⟨[]⟩ "alice" 5 77
        = .ok (registry_add_address ⟨[]⟩ 5 77, w, evs)) ∧
    create_wallet_no_sig ⟨[(5, 77)]⟩ "again" 5 78
      = .error .EAddressAlreadyExists ∧
    create_wallet_for_address ⟨[(5, 77)]⟩ 5 "again" 78
      = .error .EAddressAlreadyExists := by
  refine ⟨?_, ?_, ?_⟩
  · exact ((registry_uniqueness ⟨[]⟩ 5 "alice" "x" 1 [] enclaveAcceptAll 77
      78).1 (by rfl)).1
  · exact ((registry_uniqueness ⟨[(5, 77)]⟩ 5 "again" "x" 1 [] enclaveAcceptAll
      78 79).2.1 (by rfl)).2.1
  · have h := ((registry_uniqueness ⟨[(5, 77)]⟩ 5 "again" "x" 1 []
      enclaveAcceptAll 78 79).2.1 (by rfl)).2.2
    exact h

/-- C2: evaluation at the failing input.  Under an enclave that rejects every
signature — so the supplied signature certainly does not verify against the
registered key for the attest-result intent, timestamp and reconstructed
payload — apply_bioauth nevertheless succeeds and advances last_timestamp,
instead of failing with InvalidSignature, because the source's signature
verification block is commented out (bioguard.move lines 44-52). -/
theorem apply_bioauth_accepts_invalid_signature :
    apply_bioauth wAlice "alice" 10 BIOAUTH_OK "t" 5 [] enclaveRejectAll 0
      = .ok ({ wAlice with last_timestamp := 5 },
             [.BioAuthCompleted "alice" 10 BIOAUTH_OK]) := by rfl

/-- C3 counterexample: the attested withdraw performs no replay check.  A
wallet whose last_timestamp is 10 accepts a withdraw carrying the stale
timestamp 5 (5 ≤ 10) and leaves last_timestamp at 10, instead of rejecting
it with ReplayAttempt, refuting the claim for the withdraw operation. -/
theorem withdraw_ignores_replay :
    withdraw { wAlice with last_timestamp := 10 } 5 "SUI" 5 [] enclaveAcceptAll
        0 10 "SUI"
      = .ok ({ wAlice with last_timestamp := 10, balances := [("SUI", 95)] },
             5, [.Withdrawn "alice" "SUI" 5]) := by rfl

/-- C3 (amended): apply_bioauth, link_address and the attested transfer
enforce replay protection on the target wallet — once their earlier guards
pass, a timestamp not strictly greater than last_timestamp aborts with
ReplayAttempt, success sets last_timestamp to the supplied timestamp, and
submitting timestamp t2 then t1 ≤ t2 fails the second submission — but the
attested withdraw performs no replay check (see the counterexample). -/
theorem replay_protection_amended
    (w from_w to_w : RamWallet) (handle : String) (amount result : Nat)
    (transcript : String) (addr : Nat) (ct : String) (ts : Nat)
    (sig : List Nat) (enc : Enclave) (clock : Nat) (tkey : String)
    (amount2 result2 : Nat) (transcript2 : String) (sig2 : List Nat)
    (clock2 : Nat) :
    (w.handle = handle → ts ≤ w.last_timestamp →
      apply_bioauth w handle amount result transcript ts sig enc clock
        = .error .EReplayAttempt)
    ∧ (enc.verify LINK_ADDRESS_INTENT ts (.LinkAddress w.handle addr) sig
          = true →
        ts ≤ w.last_timestamp →
        link_address w addr ts sig enc = .error .EReplayAttempt)
    ∧ (¬ clock < from_w.locked_until_ms → ¬ clock < to_w.locked_until_ms →
        ct = tkey →
        enc.verify TRANSFER_INTENT ts
          (.Transfer from_w.handle to_w.handle amount ct) sig = true →
        ts ≤ from_w.last_timestamp →
        transfer_with_signature from_w to_w amount ct ts sig enc clock tkey
          = .error .EReplayAttempt)
    ∧ (∀ w' evs,
        apply_bioauth w handle amount result transcript ts sig enc clock
          = .ok (w', evs) → w'.last_timestamp = ts)
    ∧ (∀ w' evs, link_address w addr ts sig enc = .ok (w', evs) →
        w'.last_timestamp = ts)
    ∧ (∀ f t evs,
        transfer_with_signature from_w to_w amount ct ts sig enc clock tkey
          = .ok (f, t, evs) → f.last_timestamp = ts)
    ∧ (∀ w' evs t1, t1 ≤ ts →
        apply_bioauth w handle amount result transcript ts sig enc clock
          = .ok (w', evs) →
        apply_bioauth w' w'.handle amount2 result2 transcript2 t1 sig2 enc
          clock2 = .error .EReplayAttempt) := by
  have happly_last : ∀ w' evs,
      apply_bioauth w handle amount result transcript ts sig enc clock
        = .ok (w', evs) → w'.last_timestamp = ts := by
    intro w' evs h
    unfold apply_bioauth at h
    split at h
    · exact absurd h (by simp)
    · split at h
      · exact absurd h (by simp)
      · split at h <;> simp at h <;> obtain ⟨hw, _⟩ := h <;> subst hw
        · exact (lock_wallet_fields _ _).2.2.2.2
        · rfl
  refine ⟨?_, ?_, ?_, happly_last, ?_, ?_, ?_⟩
  · intro hhandle hstale
    unfold apply_bioauth
    rw [if_neg (by simp [hhandle])]
    rw [if_pos (by omega)]
  · intro hsig hstale
    unfold link_address
    rw [if_neg (by simp [hsig])]
    rw [if_pos (by omega)]
  · intro h1 h2 h3 h4 hstale
    unfold transfer_with_signature
    rw [if_neg (by simp [is_wallet_locked, h1])]
    rw [if_neg (by simp [is_wallet_locked, h2])]
    rw [if_neg (by simp [h3])]
    rw [if_neg (by simp [h4])]
    rw [if_pos (by omega)]
  · intro w' evs h
    unfold link_address at h
    split at h
    · exact absurd h (by simp)
    · split at h
      · exact absurd h (by simp)
      · simp at h
        obtain ⟨hw, _⟩ := h
        subst hw
        rfl
  · intro f t evs h
    unfold transfer_with_signature at h
    split at h
    · exact absurd h (by simp)
    · split at h
      · exact absurd h (by simp)
      · split at h
        · exact absurd h (by simp)
        · split at h
          · exact absurd h (by simp)
          · split at h
            · exact absurd h (by simp)
            · split at h
              · exact absurd h (by simp)
              · rename_i f0 t0 heq
                simp at h
                obtain ⟨hf, _, _⟩ := h
                subst hf
                have := transfer_internal_fields _ _ _ _ _ _ heq
                simpa using this.2.2.2.2.1
  · intro w' evs t1 hle h
    have hlast := happly_last w' evs h
    unfold apply_bioauth
    rw [if_neg (by simp)]
    rw [if_pos (by omega)]

/-- Witness for C3 (amended) at concrete inputs: a stale bioauth and a stale
transfer are rejected, a fresh bioauth advances the counter, and t2-then-t1
fails the second submission. -/
theorem replay_protection_amended_witness :
    apply_bioauth { wAlice with last_timestamp := 10 } "alice" 3 0 "t" 10 []
        enclaveAcceptAll 0 = .error .EReplayAttempt ∧
    transfer_with_signature { wAlice with last_timestamp := 10 } wBob 5 "SUI"
        7 [] enclaveAcceptAll 0 "SUI" = .error .EReplayAttempt ∧
    ({ wAlice with last_timestamp := 5 } : RamWallet).last_timestamp = 5 ∧
    apply_bioauth ({ wAlice with last_timestamp := 5 } : RamWallet) "alice" 4 0
        "u" 3 [] enclaveAcceptAll 9 = .error .EReplayAttempt := by
  refine ⟨?_, ?_, ?_, ?_⟩
  · exact (replay_protection_amended { wAlice with last_timestamp := 10 }
      wAlice wBob "alice" 3 0 "t" 8 "SUI" 10 [] enclaveAcceptAll 0 "SUI"
      4 0 "u" [] 9).1 rfl (by decide)
  · exact (replay_protection_amended wAlice
      { wAlice with last_timestamp := 10 } wBob "alice" 5 0 "t" 8 "SUI" 7 []
      enclaveAcceptAll 0 "SUI" 4 0 "u" [] 9).2.2.1 (by decide) (by decide)
      rfl (by rfl) (by decide)
  · exact (replay_protection_amended wAlice wAlice wBob "alice" 3 0 "t" 8
      "SUI" 5 [] enclaveAcceptAll 0 "SUI" 4 0 "u" [] 9).2.2.2.1
      { wAlice with last_timestamp := 5 }
      [.BioAuthCompleted "alice" 3 0] (by rfl)
  · exact (replay_protection_amended wAlice wAlice wBob "alice" 3 0 "t" 8
      "SUI" 5 [] enclaveAcceptAll 0 "SUI" 4 0 "u" [] 9).2.2.2.2.2.2
      { wAlice with last_timestamp := 5 }
      [.BioAuthCompleted "alice" 3 0] 3 (by decide) (by rfl)

end Ram
